import Mathlib

/-!
# Verification of the line-drawing core of `alg_drawing` (src/main.c)

Shallow embedding of the rasterization and interaction-state engine:

* `put_pixel` — src/main.c lines 149–157 (bounds-checked pixel write);
* `bresLoopO` / `bresTraceO` / `draw_line` — lines 160–188 (solid Bresenham);
* `dottedLoopO` / `dottedTraceO` / `draw_dotted_line` — lines 190–223;
* `snap_to_axis` — lines 225–252;
* `handle_click` — lines 272–302 (two-click state machine with
  snapshot/restore via `memcpy`);
* `terminate` / `init_display` — lines 47–50 and 85–139, modelled as the
  list of external actions the startup path performs, in program order.

C `int` values are embedded as `Int` (no arithmetic here approaches 2^31
except the `(unsigned)` cast in `put_pixel`, which is modelled exactly as a
reduction modulo 2^32).  The framebuffer `uint32_t*` arrays are embedded as
`List Nat`; `memcpy` over `w*h` elements is `memcpyN`.  The drawing loops
are embedded as fuel-indexed recursions returning `none` when the fuel runs
out; termination proofs show the fuel `max |dx| |dy| + 1` always suffices,
exactly mirroring the `while (1) { ...; if (x0 == x1 && y0 == y1) break;
...}` loops of the source.
-/

/-- The C cast `(unsigned)x` of a 32-bit `int`: reduction modulo 2^32. -/
def toU32 (x : Int) : Nat := (x % 4294967296).toNat

/-- src/main.c 149–157: `put_pixel(ctx, x, y, r, g, b)`.  The source guard is
`(unsigned)x >= ctx->w || (unsigned)y >= ctx->h`; in bounds it stores
`(r << 16) | (g << 8) | b` at index `y * w + x`. -/
def put_pixel (w h : Nat) (data : List Nat) (x y : Int) (r g b : Nat) : List Nat :=
  if w ≤ toU32 x ∨ h ≤ toU32 y then data
  else data.set (toU32 y * w + toU32 x) ((r <<< 16) ||| (g <<< 8) ||| b)

/-- `memcpy(dst, src, n * sizeof(uint32_t))` on element lists: the first `n`
elements of `src` overwrite the first `n` elements of `dst`. -/
def memcpyN (dst src : List Nat) (n : Nat) : List Nat :=
  src.take n ++ dst.drop n

/-- src/main.c 10–14: the `Framebuffer` struct (live grid and saved snapshot). -/
structure Framebuffer where
  data : List Nat
  saved : List Nat

/-- src/main.c 285: `memcpy(ctx->fb.saved, ctx->fb.data, w*h*4)` — snapshot. -/
def snapshot (w h : Nat) (fb : Framebuffer) : Framebuffer :=
  { data := fb.data, saved := memcpyN fb.saved fb.data (w * h) }

/-- src/main.c 289: `memcpy(ctx->fb.data, ctx->fb.saved, w*h*4)` — restore. -/
def restore (w h : Nat) (fb : Framebuffer) : Framebuffer :=
  { data := memcpyN fb.data fb.saved (w * h), saved := fb.saved }

/-- src/main.c 65–71: `fill_framebuffer` sets every pixel to the color. -/
def fill_framebuffer (w h : Nat) (r g b : Nat) : List Nat :=
  List.replicate (w * h) ((r <<< 16) ||| (g <<< 8) ||| b)

/-- src/main.c 73–77: `clear_framebuffer` fills with black. -/
def clear_framebuffer (w h : Nat) : List Nat :=
  fill_framebuffer w h 0 0 0

/-- C `abs()` on `int`, as written: conditional negation. -/
def absInt (v : Int) : Int := if v < 0 then -v else v

/-- The C conditional `a < b ? a : b` used for `min_dist` in `snap_to_axis`. -/
def minInt (a b : Int) : Int := if a < b then a else b

/-- src/main.c 225–252: `snap_to_axis(ctx, x0, y0, &x1, &y1)`, returning the
rewritten `(x1, y1)`.  `dx = x1-x0`, `dy = y1-y0`; vertical when
`abs_dx < abs_dy/2`, horizontal when `abs_dy < abs_dx/2`, otherwise the 45°
diagonal with `min_dist = min(abs_dx, abs_dy)` signed by `dx > 0` / `dy > 0`. -/
def snap_to_axis (x0 y0 x1 y1 : Int) : Int × Int :=
  if absInt (x1 - x0) < absInt (y1 - y0) / 2 then
    (x0, y1)
  else if absInt (y1 - y0) < absInt (x1 - x0) / 2 then
    (x1, y0)
  else
    (x0 + (if 0 < x1 - x0 then minInt (absInt (x1 - x0)) (absInt (y1 - y0))
           else -(minInt (absInt (x1 - x0)) (absInt (y1 - y0)))),
     y0 + (if 0 < y1 - y0 then minInt (absInt (x1 - x0)) (absInt (y1 - y0))
           else -(minInt (absInt (x1 - x0)) (absInt (y1 - y0)))))

/-- src/main.c 169–187: the body of `draw_line`'s `while (1)` loop, emitting
the visited points in order.  The loop plots `(x0, y0)`, breaks when
`x0 == x1 && y0 == y1`, else computes `e2 = 2*err` and advances `x0` when
`e2 >= dy` (adding `dy` to `err`) and `y0` when `e2 <= dx` (adding `dx`).
The recursion is indexed by fuel; `none` means the fuel ran out before the
break (proved impossible for fuel `max |x1-x0| |y1-y0| + 1` below). -/
def bresLoopO (x1 y1 dx dy sx sy : Int) : Nat → Int → Int → Int → Option (List (Int × Int))
  | 0, _, _, _ => none
  | n + 1, x0, y0, err =>
    if x0 = x1 ∧ y0 = y1 then
      some [(x0, y0)]
    else
      let e2 := 2 * err
      let x0n := if dy ≤ e2 then x0 + sx else x0
      let err1 := if dy ≤ e2 then err + dy else err
      let y0n := if e2 ≤ dx then y0 + sy else y0
      let err2 := if e2 ≤ dx then err1 + dx else err1
      (bresLoopO x1 y1 dx dy sx sy n x0n y0n err2).map (fun rest => (x0, y0) :: rest)

/-- src/main.c 160–167: `draw_line`'s initialization (`dx = abs(x1-x0)`,
`sx = x0 < x1 ? 1 : -1`, `dy = -abs(y1-y0)`, `sy = y0 < y1 ? 1 : -1`,
`err = dx + dy`) followed by the traversal loop. -/
def bresTraceO (x0 y0 x1 y1 : Int) : Option (List (Int × Int)) :=
  bresLoopO x1 y1 ((x1 - x0).natAbs : Int) (-((y1 - y0).natAbs : Int))
    (if x0 < x1 then 1 else -1) (if y0 < y1 then 1 else -1)
    (max (x1 - x0).natAbs (y1 - y0).natAbs + 1)
    x0 y0 (((x1 - x0).natAbs : Int) + -((y1 - y0).natAbs : Int))

/-- The visited-point sequence of `draw_line` (total form of `bresTraceO`). -/
def bresTrace (x0 y0 x1 y1 : Int) : List (Int × Int) :=
  (bresTraceO x0 y0 x1 y1).getD []

/-- src/main.c 160–188: `draw_line` writes each visited point into the
framebuffer through `put_pixel`, in traversal order. -/
def draw_line (w h : Nat) (data : List Nat) (x0 y0 x1 y1 : Int) (r g b : Nat) : List Nat :=
  (bresTrace x0 y0 x1 y1).foldl (fun d p => put_pixel w h d p.1 p.2 r g b) data

/-- src/main.c 199–222: the body of `draw_dotted_line`'s loop, emitting only
the plotted points: the traversal is identical to `draw_line`'s, but the
point is plotted only when `counter % 10 < 2`, and `counter` increments every
step regardless. -/
def dottedLoopO (x1 y1 dx dy sx sy : Int) :
    Nat → Int → Int → Int → Nat → Option (List (Int × Int))
  | 0, _, _, _, _ => none
  | n + 1, x0, y0, err, counter =>
    if x0 = x1 ∧ y0 = y1 then
      some (if counter % 10 < 2 then [(x0, y0)] else [])
    else
      let e2 := 2 * err
      let x0n := if dy ≤ e2 then x0 + sx else x0
      let err1 := if dy ≤ e2 then err + dy else err
      let y0n := if e2 ≤ dx then y0 + sy else y0
      let err2 := if e2 ≤ dx then err1 + dx else err1
      (dottedLoopO x1 y1 dx dy sx sy n x0n y0n err2 (counter + 1)).map
        (fun rest => (if counter % 10 < 2 then [(x0, y0)] else []) ++ rest)

/-- src/main.c 190–198: `draw_dotted_line`'s initialization (identical to
`draw_line`, plus `counter = 0`) and loop. -/
def dottedTraceO (x0 y0 x1 y1 : Int) : Option (List (Int × Int)) :=
  dottedLoopO x1 y1 ((x1 - x0).natAbs : Int) (-((y1 - y0).natAbs : Int))
    (if x0 < x1 then 1 else -1) (if y0 < y1 then 1 else -1)
    (max (x1 - x0).natAbs (y1 - y0).natAbs + 1)
    x0 y0 (((x1 - x0).natAbs : Int) + -((y1 - y0).natAbs : Int)) 0

/-- The plotted-point sequence of `draw_dotted_line` (total form). -/
def dottedTrace (x0 y0 x1 y1 : Int) : List (Int × Int) :=
  (dottedTraceO x0 y0 x1 y1).getD []

/-- src/main.c 190–223: `draw_dotted_line` on the framebuffer. -/
def draw_dotted_line (w h : Nat) (data : List Nat) (x0 y0 x1 y1 : Int) (r g b : Nat) :
    List Nat :=
  (dottedTrace x0 y0 x1 y1).foldl (fun d p => put_pixel w h d p.1 p.2 r g b) data

/-- The dash gate of `draw_dotted_line`, applied along a visited-point list
with a running step counter: keeps exactly the points whose counter value
`c` satisfies `c % 10 < 2`. -/
def dottedFilter : Nat → List (Int × Int) → List (Int × Int)
  | _, [] => []
  | c, p :: rest => (if c % 10 < 2 then [p] else []) ++ dottedFilter (c + 1) rest

/-- src/main.c 16–25 restricted to the core: canvas size and framebuffer. -/
structure Ctx where
  w : Nat
  h : Nat
  fb : Framebuffer

/-- src/main.c 27–33: the `InputState` struct. -/
structure InputState where
  running : Bool
  have_first : Bool
  x0 : Int
  y0 : Int

/-- src/main.c 272–302: `handle_click`.  First click: record the anchor,
plot a white marker pixel, snapshot.  Second click: restore the snapshot,
optionally snap the endpoint (Shift), then draw a dotted (Control) or solid
white line from the anchor, and clear the `have_first` flag. -/
def handle_click (ctx : Ctx) (st : InputState) (x y : Int) (shiftMask ctrlMask : Bool) :
    Ctx × InputState :=
  if !st.have_first then
    let data1 := put_pixel ctx.w ctx.h ctx.fb.data x y 255 255 255
    ({ ctx with fb := { data := data1, saved := memcpyN ctx.fb.saved data1 (ctx.w * ctx.h) } },
     { st with have_first := true, x0 := x, y0 := y })
  else
    let data1 := memcpyN ctx.fb.data ctx.fb.saved (ctx.w * ctx.h)
    let p := if shiftMask then snap_to_axis st.x0 st.y0 x y else (x, y)
    let data2 :=
      if ctrlMask then draw_dotted_line ctx.w ctx.h data1 st.x0 st.y0 p.1 p.2 255 255 255
      else draw_line ctx.w ctx.h data1 st.x0 st.y0 p.1 p.2 255 255 255
    ({ ctx with fb := { data := data2, saved := ctx.fb.saved } },
     { st with have_first := false })

/-- A 10×10 canvas as produced by startup: both buffers zeroed. -/
def canvas10 : Ctx :=
  { w := 10, h := 10,
    fb := { data := List.replicate 100 0, saved := List.replicate 100 0 } }

/-- The initial `InputState` of src/main.c 307. -/
def idleState : InputState :=
  { running := true, have_first := false, x0 := 0, y0 := 0 }

/-- The two startup error messages of src/main.c 90 and 125. -/
inductive StartupMsg where
  | cannotOpenDisplay : StartupMsg
  | cannotCreateImage : StartupMsg
deriving DecidableEq

/-- The externally visible operations of the startup path, in program order. -/
inductive XAction where
  | reportError : StartupMsg → XAction
  | exitProcess : XAction
  | defaultScreen : XAction
  | createSimpleWindow : XAction
  | selectInput : XAction
  | mapWindow : XAction
  | initFramebuffer : XAction
  | createGC : XAction
  | createImage : XAction
  | clearFramebuffer : XAction
deriving DecidableEq

/-- src/main.c 47–50: `terminate(message)` performs exactly one action — it
prints the message to stderr.  The function body contains no call that ends
the process (no `exit`, no `abort`), so `XAction.exitProcess` never occurs. -/
def terminate (m : StartupMsg) : List XAction :=
  [XAction.reportError m]

/-- src/main.c 85–139: the sequence of external actions `init_display`
performs, parameterized by whether `XOpenDisplay` and `XCreateImage`
succeed.  On a null display the source calls `terminate` and then falls
through to the remaining calls unconditionally. -/
def init_display (displayOk imageOk : Bool) : List XAction :=
  (if displayOk then [] else terminate StartupMsg.cannotOpenDisplay)
  ++ [XAction.defaultScreen, XAction.createSimpleWindow, XAction.selectInput,
      XAction.mapWindow, XAction.initFramebuffer, XAction.createGC,
      XAction.createImage]
  ++ (if imageOk then [] else terminate StartupMsg.cannotCreateImage)
  ++ [XAction.clearFramebuffer]

/-- Chebyshev adjacency of two grid points: 8-connected neighbours. -/
def adj8 (u v : Int × Int) : Prop :=
  max (v.1 - u.1).natAbs (v.2 - u.2).natAbs = 1

/-- C6: for anchor `(0,0)` and proposed endpoint `(9,3)` (`adx = 9`,
`ady = 3`), `snap_to_axis` does not take the vertical branch (`9 < 3/2` is
false), takes the horizontal branch (`3 < 9/2 = 4` is true), and returns
`x1' = 9`, `y1' = 0` — settling the spec's internal disagreement in favour of
the horizontal branch, per the exact thresholds. -/
theorem C6_snap_9_3_horizontal :
    ¬ absInt (9 - 0) < absInt (3 - 0) / 2
    ∧ absInt (3 - 0) < absInt (9 - 0) / 2
    ∧ snap_to_axis 0 0 9 3 = (9, 0) := by
  refine ⟨?_, ?_, ?_⟩ <;> decide

/-- C5: the startup failure path is not fatal in the code.  `terminate` only
reports (it contains no process-ending action), and on a null display
`init_display` reports once and then performs seven further external
operations on the unavailable display before clearing the framebuffer —
contradicting the spec's "reported once and the process terminates, …
performs no further operations after reporting the failure". -/
theorem C5_startup_failure_not_fatal :
    terminate StartupMsg.cannotOpenDisplay = [XAction.reportError StartupMsg.cannotOpenDisplay]
    ∧ XAction.exitProcess ∉ terminate StartupMsg.cannotOpenDisplay
    ∧ init_display false true =
        XAction.reportError StartupMsg.cannotOpenDisplay ::
          [XAction.defaultScreen, XAction.createSimpleWindow, XAction.selectInput,
           XAction.mapWindow, XAction.initFramebuffer, XAction.createGC,
           XAction.createImage, XAction.clearFramebuffer]
    ∧ XAction.exitProcess ∉ init_display false true := by
  refine ⟨rfl, ?_, rfl, ?_⟩ <;> decide

/-- C10: restoring immediately after a snapshot, with no intervening writes,
leaves the live pixel grid byte-identical to its pre-snapshot state.  The
length hypothesis is the program invariant that the live grid holds exactly
`w*h` pixels (src/main.c 55, `calloc(w*h, ...)`). -/
theorem C10_restore_after_snapshot (w h : Nat) (fb : Framebuffer)
    (hlen : fb.data.length = w * h) :
    (restore w h (snapshot w h fb)).data = fb.data := by
  simp only [restore, snapshot, memcpyN]
  have h1 : (fb.data.take (w * h)).length = w * h := by
    simp [List.length_take, hlen]
  rw [List.take_left' h1, List.take_append_drop]

/-- Witness for `C10_restore_after_snapshot` at a concrete 2×2 framebuffer. -/
theorem C10_witness :
    (restore 2 2 (snapshot 2 2 { data := [1, 2, 3, 4], saved := [0, 0, 0, 0] })).data
      = [1, 2, 3, 4] :=
  C10_restore_after_snapshot 2 2 { data := [1, 2, 3, 4], saved := [0, 0, 0, 0] } (by decide)

/-- C1: for every representable `int` coordinate pair — negative values
included — `put_pixel` stores the packed color at index `y*w + x` exactly
when `0 ≤ x < w` and `0 ≤ y < h`, and otherwise returns the framebuffer
unchanged (total function: no error).  The range hypotheses say `w`, `h`,
`x`, `y` are 32-bit `int` values, so the `(unsigned)` cast behaves as in C. -/
theorem C1_put_pixel_bounds (w h : Nat) (data : List Nat) (x y : Int) (r g b : Nat)
    (hw : w ≤ 2147483648) (hh : h ≤ 2147483648)
    (hxl : -2147483648 ≤ x) (hxu : x < 2147483648)
    (hyl : -2147483648 ≤ y) (hyu : y < 2147483648) :
    ((0 ≤ x ∧ x < (w : Int) ∧ 0 ≤ y ∧ y < (h : Int)) →
      put_pixel w h data x y r g b
        = data.set (y.toNat * w + x.toNat) ((r <<< 16) ||| (g <<< 8) ||| b))
    ∧ (¬(0 ≤ x ∧ x < (w : Int) ∧ 0 ≤ y ∧ y < (h : Int)) →
      put_pixel w h data x y r g b = data) := by
  constructor
  · rintro ⟨h1, h2, h3, h4⟩
    have hxe : toU32 x = x.toNat := by unfold toU32; omega
    have hye : toU32 y = y.toNat := by unfold toU32; omega
    have hcond : ¬(w ≤ toU32 x ∨ h ≤ toU32 y) := by rw [hxe, hye]; omega
    unfold put_pixel
    rw [if_neg hcond, hxe, hye]
  · intro hnb
    have hcond : w ≤ toU32 x ∨ h ≤ toU32 y := by unfold toU32; omega
    unfold put_pixel
    rw [if_pos hcond]

/-- Witness for `C1_put_pixel_bounds`: the in-bounds store at `(2,3)` on a
10×10 canvas. -/
theorem C1_witness :
    put_pixel 10 10 (List.replicate 100 0) 2 3 255 255 255
      = (List.replicate 100 0).set ((3 : Int).toNat * 10 + (2 : Int).toNat)
          ((255 <<< 16) ||| (255 <<< 8) ||| 255) :=
  (C1_put_pixel_bounds 10 10 (List.replicate 100 0) 2 3 255 255 255
    (by decide) (by decide) (by decide) (by decide) (by decide) (by decide)).1 (by decide)

set_option maxHeartbeats 2000000 in
/-- C9: `snap_to_axis` is idempotent — applied to its own output (same
anchor), it returns that output unchanged. -/
theorem C9_snap_idempotent (x0 y0 x1 y1 a b : Int)
    (h : snap_to_axis x0 y0 x1 y1 = (a, b)) :
    snap_to_axis x0 y0 a b = (a, b) := by
  have habs : ∀ v : Int, absInt v = (v.natAbs : Int) := by
    intro v; unfold absInt; split <;> omega
  simp only [snap_to_axis, minInt, habs] at h ⊢
  split_ifs at h ⊢ <;>
    (try simp only [Prod.mk.injEq, and_true, true_and] at h ⊢) <;> omega

/-- Witness for `C9_snap_idempotent`: re-snapping the horizontal result of
anchor `(0,0)`, endpoint `(9,3)` leaves it fixed. -/
theorem C9_witness : snap_to_axis 0 0 9 0 = (9, 0) :=
  C9_snap_idempotent 0 0 9 3 9 0 (by decide)

set_option maxHeartbeats 4000000 in
/-- C4: on a blank 10×10 canvas, a first click at `(2,2)` records the anchor,
plots the white marker pixel at index 22, snapshots the framebuffer, and
sets the anchored flag; a second click at `(2,7)` with no modifiers restores
the snapshot, draws the solid vertical line of exactly the six pixels
`x = 2, y = 2..7` (indices 22, 32, 42, 52, 62, 72) in white, and clears the
anchored flag. -/
theorem C4_two_click_scenario :
    ((handle_click canvas10 idleState 2 2 false false).2.have_first = true)
    ∧ ((handle_click canvas10 idleState 2 2 false false).2.x0 = 2)
    ∧ ((handle_click canvas10 idleState 2 2 false false).2.y0 = 2)
    ∧ ((handle_click canvas10 idleState 2 2 false false).1.fb.data
        = (List.replicate 100 0).set 22 16777215)
    ∧ ((handle_click canvas10 idleState 2 2 false false).1.fb.saved
        = (List.replicate 100 0).set 22 16777215)
    ∧ ((handle_click (handle_click canvas10 idleState 2 2 false false).1
          (handle_click canvas10 idleState 2 2 false false).2 2 7 false false).1.fb.data
        = ((((((List.replicate 100 0).set 22 16777215).set 32 16777215).set 42
              16777215).set 52 16777215).set 62 16777215).set 72 16777215)
    ∧ ((handle_click (handle_click canvas10 idleState 2 2 false false).1
          (handle_click canvas10 idleState 2 2 false false).2 2 7 false false).2.have_first
        = false) := by
  decide

/-- The dotted loop equals the solid loop with the dash gate applied along
the visited points, the counter starting at `c`: the traversals are
identical, only the plotting is gated by `counter % 10 < 2`. -/
theorem dottedLoopO_eq_filter (x1 y1 dx dy sx sy : Int) :
    ∀ (n : Nat) (x0 y0 err : Int) (c : Nat),
      dottedLoopO x1 y1 dx dy sx sy n x0 y0 err c
        = (bresLoopO x1 y1 dx dy sx sy n x0 y0 err).map (dottedFilter c) := by
  intro n
  induction n with
  | zero => intro x0 y0 err c; rfl
  | succ n ih =>
    intro x0 y0 err c
    simp only [dottedLoopO, bresLoopO]
    by_cases hexit : x0 = x1 ∧ y0 = y1
    · rw [if_pos hexit, if_pos hexit]
      simp [dottedFilter]
    · rw [if_neg hexit, if_neg hexit]
      rw [ih, Option.map_map, Option.map_map]
      congr 1

/-- The dash gate only ever keeps points of the underlying list. -/
theorem dottedFilter_subset : ∀ (l : List (Int × Int)) (c : Nat), dottedFilter c l ⊆ l := by
  intro l
  induction l with
  | nil => intro c; simp [dottedFilter]
  | cons p rest ih =>
    intro c
    simp only [dottedFilter]
    intro z hz
    rcases List.mem_append.mp hz with h1 | h2
    · rcases (by split at h1 <;> simp_all : z = p) with rfl
      exact List.mem_cons_self _ _
    · exact List.mem_cons_of_mem _ (ih (c + 1) h2)

/-- `draw_dotted_line`'s traversal is `draw_line`'s with the dash gate from
counter 0. -/
theorem dottedTraceO_eq (x0 y0 x1 y1 : Int) :
    dottedTraceO x0 y0 x1 y1 = (bresTraceO x0 y0 x1 y1).map (dottedFilter 0) := by
  unfold dottedTraceO bresTraceO
  exact dottedLoopO_eq_filter _ _ _ _ _ _ _ _ _ _ _

/-- C7: for all endpoints, the plotted points of `draw_dotted_line` are
exactly the solid traversal's visited points whose step counter `c`
(starting at 0, incremented every step) satisfies `c % 10 < 2` — in
particular they are a subset of the pixels plotted by `draw_line` on the
same endpoints.  The color argument plays no role in which pixels are
plotted. -/
theorem C7_dotted_subset_solid (x0 y0 x1 y1 : Int) :
    dottedTrace x0 y0 x1 y1 = dottedFilter 0 (bresTrace x0 y0 x1 y1)
    ∧ dottedTrace x0 y0 x1 y1 ⊆ bresTrace x0 y0 x1 y1 := by
  have heq : dottedTrace x0 y0 x1 y1 = dottedFilter 0 (bresTrace x0 y0 x1 y1) := by
    unfold dottedTrace bresTrace
    rw [dottedTraceO_eq]
    cases bresTraceO x0 y0 x1 y1 with
    | none => rfl
    | some t => rfl
  exact ⟨heq, heq ▸ dottedFilter_subset _ 0⟩

/-- Pointwise-equal functions map lists equally (funext-free helper). -/
theorem map_ext_on {α β : Type} (l : List α) (f g : α → β) (h : ∀ a, f a = g a) :
    l.map f = l.map g := by
  induction l with
  | nil => rfl
  | cons a t ih => simp [h a, ih]

/-- Core invariant induction for the Bresenham loop of src/main.c 169–187, in
the half `|dy| <= |dx|` (here `B <= A`).  With `p`/`q` the completed x/y
steps, the loop head satisfies `err = (q+1)*A - (p+1)*B` and the invariant
`-B <= 2*err`, so the x coordinate advances every iteration, the head never
overshoots either endpoint, and after `A - p` further iterations the loop
breaks exactly at the endpoint.  The produced visit list has length
`A - p + 1`, starts at the current point, ends at the endpoint, consecutive
points are 8-adjacent, and its x coordinates are the arithmetic progression
with step `SX` — giving distinctness. -/
theorem bresA (A B SX SY X0 Y0 : Int)
    (hB0 : 0 ≤ B) (hBA : B ≤ A)
    (hSX : SX = 1 ∨ SX = -1) (hSY : SY = 1 ∨ SY = -1) :
    ∀ (n : Nat) (p q : Int), 0 ≤ p → 0 ≤ q → q ≤ B →
      A - p = (n : Int) →
      -B ≤ 2 * ((q + 1) * A - (p + 1) * B) →
      ∃ t, bresLoopO (X0 + A * SX) (Y0 + B * SY) A (-B) SX SY (n + 1)
            (X0 + p * SX) (Y0 + q * SY) ((q + 1) * A - (p + 1) * B) = some t
        ∧ t.length = n + 1
        ∧ t.head? = some (X0 + p * SX, Y0 + q * SY)
        ∧ t.getLast? = some (X0 + A * SX, Y0 + B * SY)
        ∧ t.Chain' adj8
        ∧ t.map Prod.fst
            = (List.range (n + 1)).map (fun k : Nat => X0 + p * SX + (k : Int) * SX) := by
  intro n
  induction n with
  | zero =>
    intro p q hp0 hq0 hqB hpn hI2
    have hA0 : (0 : Int) ≤ A := le_trans hB0 hBA
    have hpA : p = A := by omega
    have hqBe : q = B := by
      by_contra hne
      have hq1 : q + 1 ≤ B := by omega
      have hmul : (q + 1) * A ≤ B * A := mul_le_mul_of_nonneg_right hq1 hA0
      have hI2e : -B ≤ 2 * ((q + 1) * A - (A + 1) * B) := by
        rw [hpA] at hI2
        exact hI2
      nlinarith [hmul, hI2e]
    refine ⟨[(X0 + p * SX, Y0 + q * SY)], ?_, rfl, rfl, ?_, ?_, ?_⟩
    · simp [bresLoopO, hpA, hqBe]
    · simp [hpA, hqBe]
    · simp
    · have h1 : List.range 1 = [0] := rfl
      rw [h1]
      simp only [List.map_cons, List.map_nil]
      norm_num
  | succ n ih =>
    intro p q hp0 hq0 hqB hpn hI2
    have hA0 : (0 : Int) ≤ A := le_trans hB0 hBA
    have hpA : p < A := by omega
    have hexit : ¬(X0 + p * SX = X0 + A * SX ∧ Y0 + q * SY = Y0 + B * SY) := by
      rintro ⟨hx, -⟩
      rcases hSX with rfl | rfl <;> omega
    have hxc : -B ≤ 2 * ((q + 1) * A - (p + 1) * B) := hI2
    by_cases hyc : 2 * ((q + 1) * A - (p + 1) * B) ≤ A
    · -- both x and y advance
      have hqlt : q < B := by
        by_contra hq
        have hqe : q = B := by omega
        rw [hqe] at hyc
        have h1 : (p + 1) * B ≤ A * B := mul_le_mul_of_nonneg_right (by omega) hB0
        nlinarith [h1, hyc]
      have hI2n : -B ≤ 2 * ((q + 1 + 1) * A - (p + 1 + 1) * B) := by nlinarith [hI2, hBA]
      obtain ⟨t, ht, hlen, hhead, hlast, hchain, hmap⟩ :=
        ih (p + 1) (q + 1) (by omega) (by omega) (by omega) (by omega) hI2n
      refine ⟨(X0 + p * SX, Y0 + q * SY) :: t, ?_, by simp [hlen], rfl, ?_, ?_, ?_⟩
      · rw [bresLoopO]
        simp only [if_neg hexit, if_pos hxc, if_pos hyc]
        have e1 : X0 + p * SX + SX = X0 + (p + 1) * SX := by ring
        have e2 : Y0 + q * SY + SY = Y0 + (q + 1) * SY := by ring
        have e3 : (q + 1) * A - (p + 1) * B + -B + A = (q + 1 + 1) * A - (p + 1 + 1) * B := by
          ring
        rw [e1, e2, e3, ht]
        rfl
      · rcases t with _ | ⟨z, zs⟩
        · simp only [List.length_nil] at hlen
          omega
        · rw [List.getLast?_cons_cons]
          exact hlast
      · rw [List.chain'_cons']
        refine ⟨?_, hchain⟩
        intro z hz
        rw [hhead] at hz
        simp only [Option.mem_def, Option.some.injEq] at hz
        subst hz
        show max ((X0 + (p + 1) * SX - (X0 + p * SX)).natAbs)
              ((Y0 + (q + 1) * SY - (Y0 + q * SY)).natAbs) = 1
        have d1 : X0 + (p + 1) * SX - (X0 + p * SX) = SX := by ring
        have d2 : Y0 + (q + 1) * SY - (Y0 + q * SY) = SY := by ring
        rw [d1, d2]
        rcases hSX with rfl | rfl <;> rcases hSY with rfl | rfl <;> decide
      · simp only [List.map_cons]
        rw [List.range_succ_eq_map, hmap]
        simp only [List.map_cons, List.map_map]
        congr 1
        · push_cast
          ring
        · apply map_ext_on
          intro k
          simp only [Function.comp_apply]
          push_cast
          ring
    · -- only x advances
      have hI2n : -B ≤ 2 * ((q + 1) * A - (p + 1 + 1) * B) := by
        have hgt : A < 2 * ((q + 1) * A - (p + 1) * B) := not_le.mp hyc
        nlinarith [hgt, hBA]
      obtain ⟨t, ht, hlen, hhead, hlast, hchain, hmap⟩ :=
        ih (p + 1) q (by omega) hq0 hqB (by omega) hI2n
      refine ⟨(X0 + p * SX, Y0 + q * SY) :: t, ?_, by simp [hlen], rfl, ?_, ?_, ?_⟩
      · rw [bresLoopO]
        simp only [if_neg hexit, if_pos hxc, if_neg hyc]
        have e1 : X0 + p * SX + SX = X0 + (p + 1) * SX := by ring
        have e3 : (q + 1) * A - (p + 1) * B + -B = (q + 1) * A - (p + 1 + 1) * B := by ring
        rw [e1, e3, ht]
        rfl
      · rcases t with _ | ⟨z, zs⟩
        · simp only [List.length_nil] at hlen
          omega
        · rw [List.getLast?_cons_cons]
          exact hlast
      · rw [List.chain'_cons']
        refine ⟨?_, hchain⟩
        intro z hz
        rw [hhead] at hz
        simp only [Option.mem_def, Option.some.injEq] at hz
        subst hz
        show max ((X0 + (p + 1) * SX - (X0 + p * SX)).natAbs)
              ((Y0 + q * SY - (Y0 + q * SY)).natAbs) = 1
        have d1 : X0 + (p + 1) * SX - (X0 + p * SX) = SX := by ring
        have d2 : Y0 + q * SY - (Y0 + q * SY) = 0 := by ring
        rw [d1, d2]
        rcases hSX with rfl | rfl <;> decide
      · simp only [List.map_cons]
        rw [List.range_succ_eq_map, hmap]
        simp only [List.map_cons, List.map_map]
        congr 1
        · push_cast
          ring
        · apply map_ext_on
          intro k
          simp only [Function.comp_apply]
          push_cast
          ring

/-- Transposition symmetry of the Bresenham loop: swapping the roles of x
and y (and negating `err`) produces the coordinate-swapped visit list.  This
reduces the steep half `|dx| < |dy|` to `bresA`. -/
theorem bresLoopO_swap (x1 y1 dx dy sx sy : Int) :
    ∀ (n : Nat) (x0 y0 err : Int),
      bresLoopO x1 y1 dx dy sx sy n x0 y0 err
        = Option.map (List.map (fun p : Int × Int => (p.2, p.1)))
            (bresLoopO y1 x1 (-dy) (-dx) sy sx n y0 x0 (-err)) := by
  intro n
  induction n with
  | zero => intro x0 y0 err; rfl
  | succ n ih =>
    intro x0 y0 err
    by_cases hexit : x0 = x1 ∧ y0 = y1
    · rw [bresLoopO, bresLoopO, if_pos hexit, if_pos (And.intro hexit.2 hexit.1)]
      rfl
    · have hexit2 : ¬(y0 = y1 ∧ x0 = x1) := fun hc => hexit (And.intro hc.2 hc.1)
      rw [bresLoopO, bresLoopO]
      simp only [if_neg hexit, if_neg hexit2]
      by_cases hx : dy ≤ 2 * err <;> by_cases hy : 2 * err ≤ dx
      · have hx2 : 2 * -err ≤ - dy := by omega
        have hy2 : -dx ≤ 2 * -err := by omega
        simp only [if_pos hx, if_pos hy, if_pos hx2, if_pos hy2]
        have e : -err + -dx + -dy = -(err + dy + dx) := by ring
        rw [e, ih, Option.map_map, Option.map_map]
        rfl
      · have hx2 : 2 * -err ≤ - dy := by omega
        have hy2 : ¬(-dx ≤ 2 * -err) := by omega
        simp only [if_pos hx, if_neg hy, if_pos hx2, if_neg hy2]
        have e : -err + -dy = -(err + dy) := by ring
        rw [e, ih, Option.map_map, Option.map_map]
        rfl
      · have hx2 : ¬(2 * -err ≤ - dy) := by omega
        have hy2 : -dx ≤ 2 * -err := by omega
        simp only [if_neg hx, if_pos hy, if_neg hx2, if_pos hy2]
        have e : -err + -dx = -(err + dx) := by ring
        rw [e, ih, Option.map_map, Option.map_map]
        rfl
      · have hx2 : ¬(2 * -err ≤ - dy) := by omega
        have hy2 : ¬(-dx ≤ 2 * -err) := by omega
        simp only [if_neg hx, if_neg hy, if_neg hx2, if_neg hy2]
        rw [ih, Option.map_map, Option.map_map]
        rfl

/-- Full characterization of `draw_line`'s visit sequence: the loop breaks
within fuel `max |dx| |dy| + 1`, and the visit list is a duplicate-free
8-connected path from `(x0,y0)` to `(x1,y1)` of minimal length
`max |dx| |dy| + 1`. -/
theorem bresTraceO_spec (x0 y0 x1 y1 : Int) :
    ∃ t, bresTraceO x0 y0 x1 y1 = some t
      ∧ t.length = max (x1 - x0).natAbs (y1 - y0).natAbs + 1
      ∧ t.head? = some (x0, y0)
      ∧ t.getLast? = some (x1, y1)
      ∧ t.Chain' adj8
      ∧ t.Nodup := by
  have hSX : (if x0 < x1 then (1 : Int) else -1) = 1 ∨ (if x0 < x1 then (1 : Int) else -1) = -1 := by
    split <;> simp
  have hSY : (if y0 < y1 then (1 : Int) else -1) = 1 ∨ (if y0 < y1 then (1 : Int) else -1) = -1 := by
    split <;> simp
  have hx1 : x1 = x0 + ((x1 - x0).natAbs : Int) * (if x0 < x1 then (1 : Int) else -1) := by
    split_ifs <;> omega
  have hy1 : y1 = y0 + ((y1 - y0).natAbs : Int) * (if y0 < y1 then (1 : Int) else -1) := by
    split_ifs <;> omega
  rcases le_or_lt ((y1 - y0).natAbs) ((x1 - x0).natAbs) with hab | hab
  · obtain ⟨t, ht, hlen, hhead, hlast, hchain, hmap⟩ :=
      bresA ((x1 - x0).natAbs : Int) ((y1 - y0).natAbs : Int)
        (if x0 < x1 then (1 : Int) else -1) (if y0 < y1 then (1 : Int) else -1) x0 y0
        (by positivity) (by exact_mod_cast hab) hSX hSY
        ((x1 - x0).natAbs) 0 0 le_rfl le_rfl (by positivity)
        (by push_cast; ring)
        (by
          have hc : ((y1 - y0).natAbs : Int) ≤ ((x1 - x0).natAbs : Int) := by exact_mod_cast hab
          have h0 : (0 : Int) ≤ ((y1 - y0).natAbs : Int) := by positivity
          linarith)
    simp only [zero_mul, add_zero] at ht hhead
    rw [← hx1, ← hy1] at ht hlast
    have e : ((0 : Int) + 1) * ((x1 - x0).natAbs : Int) - ((0 : Int) + 1) * ((y1 - y0).natAbs : Int)
        = ((x1 - x0).natAbs : Int) + -((y1 - y0).natAbs : Int) := by ring
    rw [e] at ht
    refine ⟨t, ?_, ?_, hhead, hlast, hchain, ?_⟩
    · unfold bresTraceO
      rw [Nat.max_eq_left hab]
      exact ht
    · rw [Nat.max_eq_left hab]
      exact hlen
    · have hinj : Function.Injective
          (fun k : Nat => x0 + 0 * (if x0 < x1 then (1 : Int) else -1)
            + (k : Int) * (if x0 < x1 then (1 : Int) else -1)) := by
        intro u v huv
        simp only at huv
        rcases hSX with hs | hs <;> rw [hs] at huv <;> omega
      have h1 := List.Nodup.map hinj (List.nodup_range ((x1 - x0).natAbs + 1))
      have h2 : (t.map Prod.fst).Nodup := by
        rw [hmap]
        exact h1
      exact List.Nodup.of_map _ h2
  · obtain ⟨t, ht, hlen, hhead, hlast, hchain, hmap⟩ :=
      bresA ((y1 - y0).natAbs : Int) ((x1 - x0).natAbs : Int)
        (if y0 < y1 then (1 : Int) else -1) (if x0 < x1 then (1 : Int) else -1) y0 x0
        (by positivity) (by exact_mod_cast (le_of_lt hab)) hSY hSX
        ((y1 - y0).natAbs) 0 0 le_rfl le_rfl (by positivity)
        (by push_cast; ring)
        (by
          have hc : ((x1 - x0).natAbs : Int) ≤ ((y1 - y0).natAbs : Int) :=
            by exact_mod_cast (le_of_lt hab)
          have h0 : (0 : Int) ≤ ((x1 - x0).natAbs : Int) := by positivity
          linarith)
    simp only [zero_mul, add_zero] at ht hhead
    rw [← hy1, ← hx1] at ht hlast
    have e2 : -(((x1 - x0).natAbs : Int) + -((y1 - y0).natAbs : Int))
        = ((0 : Int) + 1) * ((y1 - y0).natAbs : Int) - ((0 : Int) + 1) * ((x1 - x0).natAbs : Int) := by
      ring
    have hswapadj : ∀ u v : Int × Int, adj8 u v → adj8 (u.2, u.1) (v.2, v.1) := by
      intro u v hv
      show max (v.2 - u.2).natAbs (v.1 - u.1).natAbs = 1
      rw [Nat.max_comm]
      exact hv
    refine ⟨t.map (fun p : Int × Int => (p.2, p.1)), ?_, ?_, ?_, ?_, ?_, ?_⟩
    · unfold bresTraceO
      rw [bresLoopO_swap, Nat.max_eq_right (le_of_lt hab)]
      simp only [neg_neg]
      rw [e2, ht]
      rfl
    · rw [List.length_map, hlen, Nat.max_eq_right (le_of_lt hab)]
    · rw [List.head?_map, hhead]
      rfl
    · rw [List.getLast?_map, hlast]
      rfl
    · rw [List.chain'_map]
      exact List.Chain'.imp (fun u v hv => hswapadj u v hv) hchain
    · apply List.Nodup.map
      · intro u v huv
        have h1 := congrArg Prod.fst huv
        have h2 := congrArg Prod.snd huv
        simp only at h1 h2
        exact Prod.ext h2 h1
      · have hinj : Function.Injective
            (fun k : Nat => y0 + 0 * (if y0 < y1 then (1 : Int) else -1)
              + (k : Int) * (if y0 < y1 then (1 : Int) else -1)) := by
          intro u v huv
          simp only at huv
          rcases hSY with hs | hs <;> rw [hs] at huv <;> omega
        have h1 := List.Nodup.map hinj (List.nodup_range ((y1 - y0).natAbs + 1))
        have h2 : (t.map Prod.fst).Nodup := by
          rw [hmap]
          exact h1
        exact List.Nodup.of_map _ h2

/-- C2: `draw_line` visits, in order, a sequence of pixels that starts at
`(x0,y0)`, ends at `(x1,y1)`, has no repeated pixel, steps only between
8-adjacent pixels, and has length `max |x1-x0| |y1-y0| + 1` — i.e. it is
exactly the 8-connected Bresenham line, each pixel plotted once, both
endpoints included (a duplicate-free 8-connected path of this minimal
length is a shortest 8-connected path).  Degenerate case: equal endpoints
plot exactly the single pixel `(x0,y0)`. -/
theorem C2_solid_traversal (x0 y0 x1 y1 : Int) :
    (bresTrace x0 y0 x1 y1).head? = some (x0, y0)
    ∧ (bresTrace x0 y0 x1 y1).getLast? = some (x1, y1)
    ∧ (bresTrace x0 y0 x1 y1).length = max (x1 - x0).natAbs (y1 - y0).natAbs + 1
    ∧ (bresTrace x0 y0 x1 y1).Chain' adj8
    ∧ (bresTrace x0 y0 x1 y1).Nodup
    ∧ bresTrace x0 y0 x0 y0 = [(x0, y0)] := by
  obtain ⟨t, ht, hlen, hhead, hlast, hchain, hnodup⟩ := bresTraceO_spec x0 y0 x1 y1
  have hbt : bresTrace x0 y0 x1 y1 = t := by
    unfold bresTrace
    rw [ht]
    rfl
  have hdeg : bresTrace x0 y0 x0 y0 = [(x0, y0)] := by
    unfold bresTrace bresTraceO
    simp [bresLoopO]
  rw [hbt]
  exact ⟨hhead, hlast, hlen, hchain, hnodup, hdeg⟩

/-- C3: both rasterization loops terminate for every pair of integer
endpoints: with fuel `max |dx| |dy| + 1` the `while (1)` loop of
`draw_line`, and the identical loop of `draw_dotted_line`, reach the
`x0 == x1 && y0 == y1` break, producing a finite, deterministic visit
sequence (the functions are deterministic by construction). -/
theorem C3_loops_terminate (x0 y0 x1 y1 : Int) :
    (∃ t, bresTraceO x0 y0 x1 y1 = some t) ∧ (∃ t, dottedTraceO x0 y0 x1 y1 = some t) := by
  obtain ⟨t, ht, -, -, -, -, -⟩ := bresTraceO_spec x0 y0 x1 y1
  refine ⟨⟨t, ht⟩, ⟨dottedFilter 0 t, ?_⟩⟩
  rw [dottedTraceO_eq, ht]
  rfl

/-- C8 (amended): swapping the endpoints yields a traversal with the same
number of pixels that still visits both endpoints; the full pixel-set
equality claimed by the spec is refuted by `C8_swap_counterexample`. -/
theorem C8_swap_endpoints_amended (x0 y0 x1 y1 : Int) :
    (bresTrace x1 y1 x0 y0).length = (bresTrace x0 y0 x1 y1).length
    ∧ (x0, y0) ∈ bresTrace x0 y0 x1 y1 ∧ (x1, y1) ∈ bresTrace x0 y0 x1 y1
    ∧ (x0, y0) ∈ bresTrace x1 y1 x0 y0 ∧ (x1, y1) ∈ bresTrace x1 y1 x0 y0 := by
  obtain ⟨t, ht, hlen, hhead, hlast, hc1, hn1⟩ := bresTraceO_spec x0 y0 x1 y1
  obtain ⟨s, hs, hlen2, hhead2, hlast2, hc2, hn2⟩ := bresTraceO_spec x1 y1 x0 y0
  have hbt : bresTrace x0 y0 x1 y1 = t := by
    unfold bresTrace
    rw [ht]
    rfl
  have hbs : bresTrace x1 y1 x0 y0 = s := by
    unfold bresTrace
    rw [hs]
    rfl
  rw [hbt, hbs]
  have h1 : (x0 - x1).natAbs = (x1 - x0).natAbs := by omega
  have h2 : (y0 - y1).natAbs = (y1 - y0).natAbs := by omega
  refine ⟨by rw [hlen, hlen2, h1, h2], ?_, ?_, ?_, ?_⟩
  · exact List.mem_of_mem_head? hhead
  · exact List.mem_of_mem_getLast? hlast
  · exact List.mem_of_mem_getLast? hlast2
  · exact List.mem_of_mem_head? hhead2

/-- C8 counterexample: the pixel sets of `draw_line(0,0,4,2)` and
`draw_line(4,2,0,0)` differ — the forward traversal plots `(1,1)` while the
reversed traversal does not (it plots `(1,0)` instead), so the claimed
set equality fails. -/
theorem C8_swap_counterexample :
    (1, 1) ∈ bresTrace 0 0 4 2 ∧ (1, 1) ∉ bresTrace 4 2 0 0 := by
  decide
